import Mathlib

/-!
Shallow embedding of the `rc_slice` crate (`src/lib.rs`): reference-counted
read-only slice views `RcSlice<T>` and `ArcSlice<T>`.

Modelling decisions:
* The backing allocation `Rc<[T]>` / `Arc<[T]>` is an immutable `List T`.
  Reference counting only governs deallocation, which has no observable
  effect on the values we reason about.
* `usize` values are `Nat`; overflow of `checked_add` is modelled explicitly
  against `usizeSize = 2 ^ 64`, and `checked_sub` fails exactly on underflow.
* A Rust function taking `&mut self`-style `it: &mut Self` is modelled as a
  function returning the pair (returned value, state of `it` after the call).
* Rust range indexing `&l[a..b]` is `sliceRange l a b = (l.drop a).take (b - a)`,
  which agrees with the Rust expression whenever `a <= b <= l.len()` — the
  situation guaranteed by the bounds invariant for every reachable view.
-/

/-- Size of the `usize` domain (64-bit target). -/
def usizeSize : Nat := 2 ^ 64

/-- Model of Rust `usize::checked_add`: `none` exactly on overflow. -/
def checked_add (a b : Nat) : Option Nat :=
  if a + b < usizeSize then some (a + b) else none

/-- Model of Rust `usize::checked_sub`: `none` exactly on underflow. -/
def checked_sub (a b : Nat) : Option Nat :=
  if b ≤ a then some (a - b) else none

/-- Rust slice indexing `&l[a..b]` (elements with indices in `[a, b)`). -/
def sliceRange {T : Type} (l : List T) (a b : Nat) : List T :=
  (l.drop a).take (b - a)

/-- The struct `RcSlice<T> { underlying: Rc<[T]>, start: usize, end: usize }`.
The field `end` is a Lean keyword, hence spelled `stop`. -/
structure RcSlice (T : Type) where
  underlying : List T
  start : Nat
  stop : Nat
  deriving Repr, DecidableEq

/-- `impl Clone for RcSlice<T>`: same underlying handle, same bounds. -/
def RcSlice.clone {T : Type} (it : RcSlice T) : RcSlice T :=
  { underlying := it.underlying, start := it.start, stop := it.stop }

/-- `impl AsRef<[T]> for RcSlice<T>` (also `Deref`/`Borrow`): the visible
content `&underlying[start..end]`. -/
def RcSlice.content {T : Type} (it : RcSlice T) : List T :=
  sliceRange it.underlying it.start it.stop

/-- `impl From<Rc<[T]>> for RcSlice<T>`: a view spanning the whole slice. -/
def RcSlice.fromList {T : Type} (underlying : List T) : RcSlice T :=
  { underlying := underlying, start := 0, stop := underlying.length }

/-- `RcSlice::bounds`. -/
def RcSlice.bounds {T : Type} (it : RcSlice T) : Nat × Nat :=
  (it.start, it.stop)

/-- `RcSlice::advance`: first component is the returned `Option<&[T]>`,
second component is the state of `it` after the call. -/
def RcSlice.advance {T : Type} (it : RcSlice T) (incr : Nat) :
    Option (List T) × RcSlice T :=
  match checked_add it.start incr with
  | none => (none, it)
  | some cut =>
    if cut ≤ it.stop then
      (some (sliceRange it.underlying it.start cut), { it with start := cut })
    else
      (none, it)

/-- `RcSlice::retract`: first component is the returned `Option<&[T]>`,
second component is the state of `it` after the call. -/
def RcSlice.retract {T : Type} (it : RcSlice T) (decr : Nat) :
    Option (List T) × RcSlice T :=
  match checked_sub it.stop decr with
  | none => (none, it)
  | some cut =>
    if it.start ≤ cut then
      (some (sliceRange it.underlying cut it.stop), { it with stop := cut })
    else
      (none, it)

/-- `RcSlice::split_off_before`: first component is the returned
`Option<RcSlice<T>>` (the front), second is the state of `it` after. -/
def RcSlice.split_off_before {T : Type} (it : RcSlice T) (index : Nat) :
    Option (RcSlice T) × RcSlice T :=
  match checked_add it.start index with
  | none => (none, it)
  | some cut =>
    if cut ≤ it.stop then
      (some { it.clone with stop := cut }, { it with start := cut })
    else
      (none, it)

/-- `RcSlice::split_off_after`: first component is the returned
`Option<RcSlice<T>>` (the back), second is the state of `it` after. -/
def RcSlice.split_off_after {T : Type} (it : RcSlice T) (index : Nat) :
    Option (RcSlice T) × RcSlice T :=
  match checked_add it.start index with
  | none => (none, it)
  | some cut =>
    if cut ≤ it.stop then
      (some { it.clone with start := cut }, { it with stop := cut })
    else
      (none, it)

/-- `impl PartialEq for RcSlice<T>`: `self.deref() == other.deref()`. -/
def RcSlice.beq {T : Type} [BEq T] (v w : RcSlice T) : Bool :=
  v.content == w.content

/-- Lexicographic comparison of slices, as in Rust `impl Ord for [T]`:
element-wise comparison, ties broken by length. -/
def compareL {T : Type} (cmp : T → T → Ordering) : List T → List T → Ordering
  | [], [] => .eq
  | [], _ :: _ => .lt
  | _ :: _, [] => .gt
  | x :: xs, y :: ys =>
    match cmp x y with
    | .eq => compareL cmp xs ys
    | o => o

/-- `impl Ord for RcSlice<T>`: `self.deref().cmp(other.deref())`. -/
def RcSlice.cmp {T : Type} (c : T → T → Ordering) (v w : RcSlice T) : Ordering :=
  compareL c v.content w.content

/-- `impl Hash for RcSlice<T>`: `Hash::hash_slice(self.deref(), state)` feeds
the visible elements, in order, into the hasher state.  The hasher is
abstracted as an arbitrary state-transition function `step`. -/
def RcSlice.hashWith {T σ : Type} (step : σ → T → σ) (st : σ) (it : RcSlice T) : σ :=
  it.content.foldl step st

/-- The struct `ArcSlice<T> { underlying: Arc<[T]>, start: usize, end: usize }`. -/
structure ArcSlice (T : Type) where
  underlying : List T
  start : Nat
  stop : Nat
  deriving Repr, DecidableEq

/-- `impl Clone for ArcSlice<T>`. -/
def ArcSlice.clone {T : Type} (it : ArcSlice T) : ArcSlice T :=
  { underlying := it.underlying, start := it.start, stop := it.stop }

/-- `impl AsRef<[T]> for ArcSlice<T>` (also `Deref`/`Borrow`). -/
def ArcSlice.content {T : Type} (it : ArcSlice T) : List T :=
  sliceRange it.underlying it.start it.stop

/-- `impl From<Arc<[T]>> for ArcSlice<T>`. -/
def ArcSlice.fromList {T : Type} (underlying : List T) : ArcSlice T :=
  { underlying := underlying, start := 0, stop := underlying.length }

/-- `ArcSlice::bounds`. -/
def ArcSlice.bounds {T : Type} (it : ArcSlice T) : Nat × Nat :=
  (it.start, it.stop)

/-- `ArcSlice::advance`. -/
def ArcSlice.advance {T : Type} (it : ArcSlice T) (incr : Nat) :
    Option (List T) × ArcSlice T :=
  match checked_add it.start incr with
  | none => (none, it)
  | some cut =>
    if cut ≤ it.stop then
      (some (sliceRange it.underlying it.start cut), { it with start := cut })
    else
      (none, it)

/-- `ArcSlice::retract`. -/
def ArcSlice.retract {T : Type} (it : ArcSlice T) (decr : Nat) :
    Option (List T) × ArcSlice T :=
  match checked_sub it.stop decr with
  | none => (none, it)
  | some cut =>
    if it.start ≤ cut then
      (some (sliceRange it.underlying cut it.stop), { it with stop := cut })
    else
      (none, it)

/-- `ArcSlice::split_off_before`. -/
def ArcSlice.split_off_before {T : Type} (it : ArcSlice T) (index : Nat) :
    Option (ArcSlice T) × ArcSlice T :=
  match checked_add it.start index with
  | none => (none, it)
  | some cut =>
    if cut ≤ it.stop then
      (some { it.clone with stop := cut }, { it with start := cut })
    else
      (none, it)

/-- `ArcSlice::split_off_after`. -/
def ArcSlice.split_off_after {T : Type} (it : ArcSlice T) (index : Nat) :
    Option (ArcSlice T) × ArcSlice T :=
  match checked_add it.start index with
  | none => (none, it)
  | some cut =>
    if cut ≤ it.stop then
      (some { it.clone with start := cut }, { it with stop := cut })
    else
      (none, it)

/-- `impl PartialEq for ArcSlice<T>`. -/
def ArcSlice.beq {T : Type} [BEq T] (v w : ArcSlice T) : Bool :=
  v.content == w.content

/-- `impl Ord for ArcSlice<T>`. -/
def ArcSlice.cmp {T : Type} (c : T → T → Ordering) (v w : ArcSlice T) : Ordering :=
  compareL c v.content w.content

/-- `impl Hash for ArcSlice<T>`. -/
def ArcSlice.hashWith {T σ : Type} (step : σ → T → σ) (st : σ) (it : ArcSlice T) : σ :=
  it.content.foldl step st

/-- Field-for-field map between the two variants (they store the same data,
differing only in the reference-counting discipline of `underlying`). -/
def ArcSlice.toRc {T : Type} (it : ArcSlice T) : RcSlice T :=
  { underlying := it.underlying, start := it.start, stop := it.stop }

/-- Inverse of `ArcSlice.toRc`. -/
def RcSlice.toArc {T : Type} (it : RcSlice T) : ArcSlice T :=
  { underlying := it.underlying, start := it.start, stop := it.stop }

/-- Well-formedness of a view: the bounds invariant plus representability of
the indices in `usize` (automatic in Rust, where slice lengths fit `usize`). -/
def RcSlice.Wf {T : Type} (it : RcSlice T) : Prop :=
  it.start ≤ it.stop ∧ it.stop ≤ it.underlying.length ∧
    it.underlying.length < usizeSize

instance {T : Type} (it : RcSlice T) : Decidable it.Wf := by
  unfold RcSlice.Wf; infer_instance

/-- Views reachable from a freshly constructed `RcSlice` by any sequence of
`clone`, `advance`, `retract`, `split_off_before`, `split_off_after`
(both the mutated handle and any newly returned view). -/
inductive RcReachable {T : Type} : RcSlice T → Prop where
  | fresh (l : List T) : RcReachable (RcSlice.fromList l)
  | clone {v : RcSlice T} : RcReachable v → RcReachable v.clone
  | advance {v : RcSlice T} (incr : Nat) :
      RcReachable v → RcReachable (v.advance incr).snd
  | retract {v : RcSlice T} (decr : Nat) :
      RcReachable v → RcReachable (v.retract decr).snd
  | split_before_rest {v : RcSlice T} (index : Nat) :
      RcReachable v → RcReachable (v.split_off_before index).snd
  | split_before_new {v f : RcSlice T} (index : Nat) :
      RcReachable v → (v.split_off_before index).fst = some f → RcReachable f
  | split_after_rest {v : RcSlice T} (index : Nat) :
      RcReachable v → RcReachable (v.split_off_after index).snd
  | split_after_new {v f : RcSlice T} (index : Nat) :
      RcReachable v → (v.split_off_after index).fst = some f → RcReachable f

/-- Same reachability notion for `ArcSlice`. -/
inductive ArcReachable {T : Type} : ArcSlice T → Prop where
  | fresh (l : List T) : ArcReachable (ArcSlice.fromList l)
  | clone {v : ArcSlice T} : ArcReachable v → ArcReachable v.clone
  | advance {v : ArcSlice T} (incr : Nat) :
      ArcReachable v → ArcReachable (v.advance incr).snd
  | retract {v : ArcSlice T} (decr : Nat) :
      ArcReachable v → ArcReachable (v.retract decr).snd
  | split_before_rest {v : ArcSlice T} (index : Nat) :
      ArcReachable v → ArcReachable (v.split_off_before index).snd
  | split_before_new {v f : ArcSlice T} (index : Nat) :
      ArcReachable v → (v.split_off_before index).fst = some f → ArcReachable f
  | split_after_rest {v : ArcSlice T} (index : Nat) :
      ArcReachable v → ArcReachable (v.split_off_after index).snd
  | split_after_new {v f : ArcSlice T} (index : Nat) :
      ArcReachable v → (v.split_off_after index).fst = some f → ArcReachable f

/-- One bounds-mutating operation, applied to a view while discarding the
returned slice or companion view (used to express frame properties). -/
inductive MutOp where
  | advanceBy (incr : Nat)
  | retractBy (decr : Nat)
  | splitBefore (index : Nat)
  | splitAfter (index : Nat)

/-- Apply a bounds-mutating operation to a view, keeping the state of the
mutated handle. -/
def applyOp {T : Type} (it : RcSlice T) : MutOp → RcSlice T
  | .advanceBy n => (it.advance n).snd
  | .retractBy n => (it.retract n).snd
  | .splitBefore n => (it.split_off_before n).snd
  | .splitAfter n => (it.split_off_after n).snd

/-- State of a pair (original view, copied view) where every operation is
applied to the copy only. -/
def stepPair {T : Type} (p : RcSlice T × RcSlice T) (op : MutOp) :
    RcSlice T × RcSlice T :=
  (p.fst, applyOp p.snd op)

/-- Apply a bounds-mutating operation to an `ArcSlice` view, keeping the
state of the mutated handle. -/
def applyOpArc {T : Type} (it : ArcSlice T) : MutOp → ArcSlice T
  | .advanceBy n => (it.advance n).snd
  | .retractBy n => (it.retract n).snd
  | .splitBefore n => (it.split_off_before n).snd
  | .splitAfter n => (it.split_off_after n).snd

/-- State of a pair (original `ArcSlice` view, copied view) where every
operation is applied to the copy only. -/
def stepPairArc {T : Type} (p : ArcSlice T × ArcSlice T) (op : MutOp) :
    ArcSlice T × ArcSlice T :=
  (p.fst, applyOpArc p.snd op)

example : RcSlice.bounds (RcSlice.fromList [10, 20, 30, 40, 50]) = (0, 5) := by decide

example :
    (RcSlice.split_off_before (RcSlice.fromList [10, 20, 30, 40, 50]) 2).snd.bounds
      = (2, 5) := by decide

example :
    ((RcSlice.split_off_before (RcSlice.fromList [10, 20, 30, 40, 50]) 2).fst.map
      RcSlice.content) = some [10, 20] := by decide

example :
    ((RcSlice.split_off_after (RcSlice.fromList [10, 20, 30]) 0).fst.map
      RcSlice.content) = some [10, 20, 30] := by decide

example :
    (RcSlice.split_off_after (RcSlice.fromList [10, 20, 30]) 0).snd.content = [] := by
  decide

example :
    (RcSlice.advance (RcSlice.fromList [10, 20, 30]) 1).fst = some [10] := by decide

example :
    (RcSlice.retract (RcSlice.fromList [10, 20, 30]) 1).fst = some [30] := by decide

example :
    (RcSlice.advance { underlying := [10, 20, 30], start := 3, stop := 4 } 5).fst
      = (none : Option (List Nat)) := by decide

/-! ### Helper lemmas about `sliceRange` -/

theorem sliceRange_take {T : Type} (l : List T) (a b n : Nat) (h : a + n ≤ b) :
    (sliceRange l a b).take n = sliceRange l a (a + n) := by
  unfold sliceRange
  rw [List.take_take]
  congr 1
  omega

theorem sliceRange_append {T : Type} (l : List T) (a b c : Nat)
    (h1 : a ≤ b) (h2 : b ≤ c) :
    sliceRange l a b ++ sliceRange l b c = sliceRange l a c := by
  unfold sliceRange
  have e1 : c - a = (b - a) + (c - b) := by omega
  rw [e1, List.take_add]
  congr 2
  rw [List.drop_drop]
  congr 1
  omega

theorem sliceRange_suffix {T : Type} (l : List T) (s e decr : Nat)
    (hd : decr ≤ e) (hs : s ≤ e - decr) (hl : e ≤ l.length) :
    (sliceRange l s e).drop ((sliceRange l s e).length - decr)
      = sliceRange l (e - decr) e := by
  unfold sliceRange
  rw [List.length_take, List.length_drop]
  have e0 : (e - s) ⊓ (l.length - s) = e - s := by omega
  rw [e0, List.drop_take, List.drop_drop]
  have e1 : (e - s) - ((e - s) - decr) = e - (e - decr) := by omega
  have e2 : s + ((e - s) - decr) = e - decr := by omega
  rw [e1, e2]

/-! ### Case equations for the RcSlice operations -/

theorem RcSlice.advance_pos {T : Type} (it : RcSlice T) (incr : Nat)
    (h1 : it.start + incr < usizeSize) (h2 : it.start + incr ≤ it.stop) :
    it.advance incr =
      (some (sliceRange it.underlying it.start (it.start + incr)),
        { it with start := it.start + incr }) := by
  unfold RcSlice.advance checked_add
  rw [if_pos h1]
  dsimp only
  rw [if_pos h2]

theorem RcSlice.advance_none {T : Type} (it : RcSlice T) (incr : Nat)
    (h : usizeSize ≤ it.start + incr ∨ it.stop < it.start + incr) :
    it.advance incr = (none, it) := by
  unfold RcSlice.advance checked_add
  rcases h with h | h
  · rw [if_neg (by omega)]
  · by_cases h1 : it.start + incr < usizeSize
    · rw [if_pos h1]
      dsimp only
      rw [if_neg (by omega)]
    · rw [if_neg h1]

theorem RcSlice.retract_pos {T : Type} (it : RcSlice T) (decr : Nat)
    (h1 : decr ≤ it.stop) (h2 : it.start ≤ it.stop - decr) :
    it.retract decr =
      (some (sliceRange it.underlying (it.stop - decr) it.stop),
        { it with stop := it.stop - decr }) := by
  unfold RcSlice.retract checked_sub
  rw [if_pos h1]
  dsimp only
  rw [if_pos h2]

theorem RcSlice.retract_none {T : Type} (it : RcSlice T) (decr : Nat)
    (h : it.stop < decr ∨ it.stop - decr < it.start) :
    it.retract decr = (none, it) := by
  unfold RcSlice.retract checked_sub
  rcases h with h | h
  · rw [if_neg (by omega)]
  · by_cases h1 : decr ≤ it.stop
    · rw [if_pos h1]
      dsimp only
      rw [if_neg (by omega)]
    · rw [if_neg h1]

theorem RcSlice.split_off_before_pos {T : Type} (it : RcSlice T) (index : Nat)
    (h1 : it.start + index < usizeSize) (h2 : it.start + index ≤ it.stop) :
    it.split_off_before index =
      (some { underlying := it.underlying, start := it.start, stop := it.start + index },
        { it with start := it.start + index }) := by
  unfold RcSlice.split_off_before checked_add
  rw [if_pos h1]
  dsimp only
  rw [if_pos h2]
  rfl

theorem RcSlice.split_off_before_none {T : Type} (it : RcSlice T) (index : Nat)
    (h : usizeSize ≤ it.start + index ∨ it.stop < it.start + index) :
    it.split_off_before index = (none, it) := by
  unfold RcSlice.split_off_before checked_add
  rcases h with h | h
  · rw [if_neg (by omega)]
  · by_cases h1 : it.start + index < usizeSize
    · rw [if_pos h1]
      dsimp only
      rw [if_neg (by omega)]
    · rw [if_neg h1]

theorem RcSlice.split_off_after_pos {T : Type} (it : RcSlice T) (index : Nat)
    (h1 : it.start + index < usizeSize) (h2 : it.start + index ≤ it.stop) :
    it.split_off_after index =
      (some { underlying := it.underlying, start := it.start + index, stop := it.stop },
        { it with stop := it.start + index }) := by
  unfold RcSlice.split_off_after checked_add
  rw [if_pos h1]
  dsimp only
  rw [if_pos h2]
  rfl

theorem RcSlice.split_off_after_none {T : Type} (it : RcSlice T) (index : Nat)
    (h : usizeSize ≤ it.start + index ∨ it.stop < it.start + index) :
    it.split_off_after index = (none, it) := by
  unfold RcSlice.split_off_after checked_add
  rcases h with h | h
  · rw [if_neg (by omega)]
  · by_cases h1 : it.start + index < usizeSize
    · rw [if_pos h1]
      dsimp only
      rw [if_neg (by omega)]
    · rw [if_neg h1]

/-! ### Case equations for the ArcSlice operations -/

theorem ArcSlice.advance_pos_arc {T : Type} (it : ArcSlice T) (incr : Nat)
    (h1 : it.start + incr < usizeSize) (h2 : it.start + incr ≤ it.stop) :
    it.advance incr =
      (some (sliceRange it.underlying it.start (it.start + incr)),
        { it with start := it.start + incr }) := by
  unfold ArcSlice.advance checked_add
  rw [if_pos h1]
  dsimp only
  rw [if_pos h2]

theorem ArcSlice.advance_none_arc {T : Type} (it : ArcSlice T) (incr : Nat)
    (h : usizeSize ≤ it.start + incr ∨ it.stop < it.start + incr) :
    it.advance incr = (none, it) := by
  unfold ArcSlice.advance checked_add
  rcases h with h | h
  · rw [if_neg (by omega)]
  · by_cases h1 : it.start + incr < usizeSize
    · rw [if_pos h1]
      dsimp only
      rw [if_neg (by omega)]
    · rw [if_neg h1]

theorem ArcSlice.retract_pos_arc {T : Type} (it : ArcSlice T) (decr : Nat)
    (h1 : decr ≤ it.stop) (h2 : it.start ≤ it.stop - decr) :
    it.retract decr =
      (some (sliceRange it.underlying (it.stop - decr) it.stop),
        { it with stop := it.stop - decr }) := by
  unfold ArcSlice.retract checked_sub
  rw [if_pos h1]
  dsimp only
  rw [if_pos h2]

theorem ArcSlice.retract_none_arc {T : Type} (it : ArcSlice T) (decr : Nat)
    (h : it.stop < decr ∨ it.stop - decr < it.start) :
    it.retract decr = (none, it) := by
  unfold ArcSlice.retract checked_sub
  rcases h with h | h
  · rw [if_neg (by omega)]
  · by_cases h1 : decr ≤ it.stop
    · rw [if_pos h1]
      dsimp only
      rw [if_neg (by omega)]
    · rw [if_neg h1]

theorem ArcSlice.split_off_before_pos_arc {T : Type} (it : ArcSlice T) (index : Nat)
    (h1 : it.start + index < usizeSize) (h2 : it.start + index ≤ it.stop) :
    it.split_off_before index =
      (some { underlying := it.underlying, start := it.start, stop := it.start + index },
        { it with start := it.start + index }) := by
  unfold ArcSlice.split_off_before checked_add
  rw [if_pos h1]
  dsimp only
  rw [if_pos h2]
  rfl

theorem ArcSlice.split_off_before_none_arc {T : Type} (it : ArcSlice T) (index : Nat)
    (h : usizeSize ≤ it.start + index ∨ it.stop < it.start + index) :
    it.split_off_before index = (none, it) := by
  unfold ArcSlice.split_off_before checked_add
  rcases h with h | h
  · rw [if_neg (by omega)]
  · by_cases h1 : it.start + index < usizeSize
    · rw [if_pos h1]
      dsimp only
      rw [if_neg (by omega)]
    · rw [if_neg h1]

theorem ArcSlice.split_off_after_pos_arc {T : Type} (it : ArcSlice T) (index : Nat)
    (h1 : it.start + index < usizeSize) (h2 : it.start + index ≤ it.stop) :
    it.split_off_after index =
      (some { underlying := it.underlying, start := it.start + index, stop := it.stop },
        { it with stop := it.start + index }) := by
  unfold ArcSlice.split_off_after checked_add
  rw [if_pos h1]
  dsimp only
  rw [if_pos h2]
  rfl

theorem ArcSlice.split_off_after_none_arc {T : Type} (it : ArcSlice T) (index : Nat)
    (h : usizeSize ≤ it.start + index ∨ it.stop < it.start + index) :
    it.split_off_after index = (none, it) := by
  unfold ArcSlice.split_off_after checked_add
  rcases h with h | h
  · rw [if_neg (by omega)]
  · by_cases h1 : it.start + index < usizeSize
    · rw [if_pos h1]
      dsimp only
      rw [if_neg (by omega)]
    · rw [if_neg h1]

/-! ### Preservation of the bounds invariant -/

theorem RcSlice.inv_advance {T : Type} (it : RcSlice T) (n : Nat)
    (h1 : it.start ≤ it.stop) (h2 : it.stop ≤ it.underlying.length) :
    (it.advance n).snd.start ≤ (it.advance n).snd.stop ∧
      (it.advance n).snd.stop ≤ (it.advance n).snd.underlying.length := by
  by_cases ha : it.start + n < usizeSize ∧ it.start + n ≤ it.stop
  · rw [RcSlice.advance_pos it n ha.1 ha.2]
    exact ⟨ha.2, h2⟩
  · rw [RcSlice.advance_none it n (by omega)]
    exact ⟨h1, h2⟩

theorem RcSlice.inv_retract {T : Type} (it : RcSlice T) (n : Nat)
    (h1 : it.start ≤ it.stop) (h2 : it.stop ≤ it.underlying.length) :
    (it.retract n).snd.start ≤ (it.retract n).snd.stop ∧
      (it.retract n).snd.stop ≤ (it.retract n).snd.underlying.length := by
  by_cases ha : n ≤ it.stop ∧ it.start ≤ it.stop - n
  · rw [RcSlice.retract_pos it n ha.1 ha.2]
    exact ⟨ha.2, show it.stop - n ≤ it.underlying.length by omega⟩
  · rw [RcSlice.retract_none it n (by omega)]
    exact ⟨h1, h2⟩

theorem RcSlice.inv_split_off_before_snd {T : Type} (it : RcSlice T) (n : Nat)
    (h1 : it.start ≤ it.stop) (h2 : it.stop ≤ it.underlying.length) :
    (it.split_off_before n).snd.start ≤ (it.split_off_before n).snd.stop ∧
      (it.split_off_before n).snd.stop ≤ (it.split_off_before n).snd.underlying.length := by
  by_cases ha : it.start + n < usizeSize ∧ it.start + n ≤ it.stop
  · rw [RcSlice.split_off_before_pos it n ha.1 ha.2]
    exact ⟨ha.2, h2⟩
  · rw [RcSlice.split_off_before_none it n (by omega)]
    exact ⟨h1, h2⟩

theorem RcSlice.inv_split_off_before_fst {T : Type} (it : RcSlice T) (n : Nat)
    (f : RcSlice T) (hf : (it.split_off_before n).fst = some f)
    (_h1 : it.start ≤ it.stop) (h2 : it.stop ≤ it.underlying.length) :
    f.start ≤ f.stop ∧ f.stop ≤ f.underlying.length := by
  by_cases ha : it.start + n < usizeSize ∧ it.start + n ≤ it.stop
  · rw [RcSlice.split_off_before_pos it n ha.1 ha.2] at hf
    have hf' := Option.some.inj hf
    subst hf'
    exact ⟨Nat.le_add_right _ _, show it.start + n ≤ it.underlying.length by omega⟩
  · rw [RcSlice.split_off_before_none it n (by omega)] at hf
    exact absurd hf (by simp)

theorem RcSlice.inv_split_off_after_snd {T : Type} (it : RcSlice T) (n : Nat)
    (h1 : it.start ≤ it.stop) (h2 : it.stop ≤ it.underlying.length) :
    (it.split_off_after n).snd.start ≤ (it.split_off_after n).snd.stop ∧
      (it.split_off_after n).snd.stop ≤ (it.split_off_after n).snd.underlying.length := by
  by_cases ha : it.start + n < usizeSize ∧ it.start + n ≤ it.stop
  · rw [RcSlice.split_off_after_pos it n ha.1 ha.2]
    exact ⟨Nat.le_add_right _ _, show it.start + n ≤ it.underlying.length by omega⟩
  · rw [RcSlice.split_off_after_none it n (by omega)]
    exact ⟨h1, h2⟩

theorem RcSlice.inv_split_off_after_fst {T : Type} (it : RcSlice T) (n : Nat)
    (f : RcSlice T) (hf : (it.split_off_after n).fst = some f)
    (_h1 : it.start ≤ it.stop) (h2 : it.stop ≤ it.underlying.length) :
    f.start ≤ f.stop ∧ f.stop ≤ f.underlying.length := by
  by_cases ha : it.start + n < usizeSize ∧ it.start + n ≤ it.stop
  · rw [RcSlice.split_off_after_pos it n ha.1 ha.2] at hf
    have hf' := Option.some.inj hf
    subst hf'
    exact ⟨ha.2, h2⟩
  · rw [RcSlice.split_off_after_none it n (by omega)] at hf
    exact absurd hf (by simp)

theorem ArcSlice.inv_advance_arc {T : Type} (it : ArcSlice T) (n : Nat)
    (h1 : it.start ≤ it.stop) (h2 : it.stop ≤ it.underlying.length) :
    (it.advance n).snd.start ≤ (it.advance n).snd.stop ∧
      (it.advance n).snd.stop ≤ (it.advance n).snd.underlying.length := by
  by_cases ha : it.start + n < usizeSize ∧ it.start + n ≤ it.stop
  · rw [ArcSlice.advance_pos_arc it n ha.1 ha.2]
    exact ⟨ha.2, h2⟩
  · rw [ArcSlice.advance_none_arc it n (by omega)]
    exact ⟨h1, h2⟩

theorem ArcSlice.inv_retract_arc {T : Type} (it : ArcSlice T) (n : Nat)
    (h1 : it.start ≤ it.stop) (h2 : it.stop ≤ it.underlying.length) :
    (it.retract n).snd.start ≤ (it.retract n).snd.stop ∧
      (it.retract n).snd.stop ≤ (it.retract n).snd.underlying.length := by
  by_cases ha : n ≤ it.stop ∧ it.start ≤ it.stop - n
  · rw [ArcSlice.retract_pos_arc it n ha.1 ha.2]
    exact ⟨ha.2, show it.stop - n ≤ it.underlying.length by omega⟩
  · rw [ArcSlice.retract_none_arc it n (by omega)]
    exact ⟨h1, h2⟩

theorem ArcSlice.inv_split_off_before_snd_arc {T : Type} (it : ArcSlice T) (n : Nat)
    (h1 : it.start ≤ it.stop) (h2 : it.stop ≤ it.underlying.length) :
    (it.split_off_before n).snd.start ≤ (it.split_off_before n).snd.stop ∧
      (it.split_off_before n).snd.stop ≤ (it.split_off_before n).snd.underlying.length := by
  by_cases ha : it.start + n < usizeSize ∧ it.start + n ≤ it.stop
  · rw [ArcSlice.split_off_before_pos_arc it n ha.1 ha.2]
    exact ⟨ha.2, h2⟩
  · rw [ArcSlice.split_off_before_none_arc it n (by omega)]
    exact ⟨h1, h2⟩

theorem ArcSlice.inv_split_off_before_fst_arc {T : Type} (it : ArcSlice T) (n : Nat)
    (f : ArcSlice T) (hf : (it.split_off_before n).fst = some f)
    (_h1 : it.start ≤ it.stop) (h2 : it.stop ≤ it.underlying.length) :
    f.start ≤ f.stop ∧ f.stop ≤ f.underlying.length := by
  by_cases ha : it.start + n < usizeSize ∧ it.start + n ≤ it.stop
  · rw [ArcSlice.split_off_before_pos_arc it n ha.1 ha.2] at hf
    have hf' := Option.some.inj hf
    subst hf'
    exact ⟨Nat.le_add_right _ _, show it.start + n ≤ it.underlying.length by omega⟩
  · rw [ArcSlice.split_off_before_none_arc it n (by omega)] at hf
    exact absurd hf (by simp)

theorem ArcSlice.inv_split_off_after_snd_arc {T : Type} (it : ArcSlice T) (n : Nat)
    (h1 : it.start ≤ it.stop) (h2 : it.stop ≤ it.underlying.length) :
    (it.split_off_after n).snd.start ≤ (it.split_off_after n).snd.stop ∧
      (it.split_off_after n).snd.stop ≤ (it.split_off_after n).snd.underlying.length := by
  by_cases ha : it.start + n < usizeSize ∧ it.start + n ≤ it.stop
  · rw [ArcSlice.split_off_after_pos_arc it n ha.1 ha.2]
    exact ⟨Nat.le_add_right _ _, show it.start + n ≤ it.underlying.length by omega⟩
  · rw [ArcSlice.split_off_after_none_arc it n (by omega)]
    exact ⟨h1, h2⟩

theorem ArcSlice.inv_split_off_after_fst_arc {T : Type} (it : ArcSlice T) (n : Nat)
    (f : ArcSlice T) (hf : (it.split_off_after n).fst = some f)
    (_h1 : it.start ≤ it.stop) (h2 : it.stop ≤ it.underlying.length) :
    f.start ≤ f.stop ∧ f.stop ≤ f.underlying.length := by
  by_cases ha : it.start + n < usizeSize ∧ it.start + n ≤ it.stop
  · rw [ArcSlice.split_off_after_pos_arc it n ha.1 ha.2] at hf
    have hf' := Option.some.inj hf
    subst hf'
    exact ⟨ha.2, h2⟩
  · rw [ArcSlice.split_off_after_none_arc it n (by omega)] at hf
    exact absurd hf (by simp)

/-- C1: every view reachable from a freshly constructed view by any sequence
of `clone`, `advance`, `retract`, `split_off_before`, `split_off_after`
(on `RcSlice` or `ArcSlice`) satisfies the bounds invariant
`0 <= start <= end <= length of the backing allocation`. -/
theorem reachable_bounds_invariant {T : Type} :
    (∀ v : RcSlice T, RcReachable v →
        0 ≤ v.start ∧ v.start ≤ v.stop ∧ v.stop ≤ v.underlying.length)
  ∧ (∀ a : ArcSlice T, ArcReachable a →
        0 ≤ a.start ∧ a.start ≤ a.stop ∧ a.stop ≤ a.underlying.length) := by
  constructor
  · intro v h
    induction h with
    | fresh l => exact ⟨Nat.zero_le _, Nat.zero_le _, Nat.le_refl _⟩
    | clone _ ih => exact ih
    | advance incr _ ih =>
      exact ⟨Nat.zero_le _, RcSlice.inv_advance _ incr ih.2.1 ih.2.2⟩
    | retract decr _ ih =>
      exact ⟨Nat.zero_le _, RcSlice.inv_retract _ decr ih.2.1 ih.2.2⟩
    | split_before_rest index _ ih =>
      exact ⟨Nat.zero_le _, RcSlice.inv_split_off_before_snd _ index ih.2.1 ih.2.2⟩
    | split_before_new index _ hf ih =>
      exact ⟨Nat.zero_le _, RcSlice.inv_split_off_before_fst _ index _ hf ih.2.1 ih.2.2⟩
    | split_after_rest index _ ih =>
      exact ⟨Nat.zero_le _, RcSlice.inv_split_off_after_snd _ index ih.2.1 ih.2.2⟩
    | split_after_new index _ hf ih =>
      exact ⟨Nat.zero_le _, RcSlice.inv_split_off_after_fst _ index _ hf ih.2.1 ih.2.2⟩
  · intro a h
    induction h with
    | fresh l => exact ⟨Nat.zero_le _, Nat.zero_le _, Nat.le_refl _⟩
    | clone _ ih => exact ih
    | advance incr _ ih =>
      exact ⟨Nat.zero_le _, ArcSlice.inv_advance_arc _ incr ih.2.1 ih.2.2⟩
    | retract decr _ ih =>
      exact ⟨Nat.zero_le _, ArcSlice.inv_retract_arc _ decr ih.2.1 ih.2.2⟩
    | split_before_rest index _ ih =>
      exact ⟨Nat.zero_le _, ArcSlice.inv_split_off_before_snd_arc _ index ih.2.1 ih.2.2⟩
    | split_before_new index _ hf ih =>
      exact ⟨Nat.zero_le _, ArcSlice.inv_split_off_before_fst_arc _ index _ hf ih.2.1 ih.2.2⟩
    | split_after_rest index _ ih =>
      exact ⟨Nat.zero_le _, ArcSlice.inv_split_off_after_snd_arc _ index ih.2.1 ih.2.2⟩
    | split_after_new index _ hf ih =>
      exact ⟨Nat.zero_le _, ArcSlice.inv_split_off_after_fst_arc _ index _ hf ih.2.1 ih.2.2⟩

/-- Witness for C1: the invariant holds for a concrete reachable view, a
view of `[3, 4, 5]` advanced by 1 and then split. -/
theorem reachable_bounds_invariant_witness :
    (0 ≤ ((RcSlice.fromList [3, 4, 5]).advance 1).snd.start ∧
      ((RcSlice.fromList [3, 4, 5]).advance 1).snd.start ≤
        ((RcSlice.fromList [3, 4, 5]).advance 1).snd.stop ∧
      ((RcSlice.fromList [3, 4, 5]).advance 1).snd.stop ≤
        ((RcSlice.fromList [3, 4, 5]).advance 1).snd.underlying.length)
  ∧ (0 ≤ (ArcSlice.fromList [3, 4, 5]).start ∧
      (ArcSlice.fromList [3, 4, 5]).start ≤ (ArcSlice.fromList [3, 4, 5]).stop ∧
      (ArcSlice.fromList [3, 4, 5]).stop ≤
        (ArcSlice.fromList [3, 4, 5]).underlying.length) :=
  ⟨reachable_bounds_invariant.1 _ (RcReachable.advance 1 (RcReachable.fresh _)),
    reachable_bounds_invariant.2 _ (ArcReachable.fresh _)⟩

/-- C2: `advance(incr)` succeeds iff `start + incr` does not overflow `usize`
and `start + incr <= end`; on success the start becomes `start + incr` (end
and backing unchanged) and the returned cut-off slice is the backing range
`[start, start+incr)`, which is the prefix of length `incr` of the original
visible content.  Stated for both `RcSlice` and `ArcSlice`. -/
theorem advance_correct {T : Type} (it : RcSlice T) (a : ArcSlice T) (incr : Nat) :
    (((it.advance incr).fst.isSome = true ↔
        it.start + incr < usizeSize ∧ it.start + incr ≤ it.stop)
      ∧ ∀ shed : List T, (it.advance incr).fst = some shed →
          (it.advance incr).snd.start = it.start + incr ∧
          (it.advance incr).snd.stop = it.stop ∧
          (it.advance incr).snd.underlying = it.underlying ∧
          shed = sliceRange it.underlying it.start (it.start + incr) ∧
          shed = it.content.take incr)
  ∧ (((a.advance incr).fst.isSome = true ↔
        a.start + incr < usizeSize ∧ a.start + incr ≤ a.stop)
      ∧ ∀ shed : List T, (a.advance incr).fst = some shed →
          (a.advance incr).snd.start = a.start + incr ∧
          (a.advance incr).snd.stop = a.stop ∧
          (a.advance incr).snd.underlying = a.underlying ∧
          shed = sliceRange a.underlying a.start (a.start + incr) ∧
          shed = a.content.take incr) := by
  constructor
  · constructor
    · by_cases ha : it.start + incr < usizeSize ∧ it.start + incr ≤ it.stop
      · rw [RcSlice.advance_pos it incr ha.1 ha.2]
        simpa using ha
      · rw [RcSlice.advance_none it incr (by omega)]
        simpa using ha
    · intro shed hs
      by_cases ha : it.start + incr < usizeSize ∧ it.start + incr ≤ it.stop
      · rw [RcSlice.advance_pos it incr ha.1 ha.2] at hs ⊢
        have he := Option.some.inj hs
        subst he
        refine ⟨rfl, rfl, rfl, rfl, ?_⟩
        unfold RcSlice.content
        exact (sliceRange_take it.underlying it.start it.stop incr ha.2).symm
      · rw [RcSlice.advance_none it incr (by omega)] at hs
        exact absurd hs (by simp)
  · constructor
    · by_cases ha : a.start + incr < usizeSize ∧ a.start + incr ≤ a.stop
      · rw [ArcSlice.advance_pos_arc a incr ha.1 ha.2]
        simpa using ha
      · rw [ArcSlice.advance_none_arc a incr (by omega)]
        simpa using ha
    · intro shed hs
      by_cases ha : a.start + incr < usizeSize ∧ a.start + incr ≤ a.stop
      · rw [ArcSlice.advance_pos_arc a incr ha.1 ha.2] at hs ⊢
        have he := Option.some.inj hs
        subst he
        refine ⟨rfl, rfl, rfl, rfl, ?_⟩
        unfold ArcSlice.content
        exact (sliceRange_take a.underlying a.start a.stop incr ha.2).symm
      · rw [ArcSlice.advance_none_arc a incr (by omega)] at hs
        exact absurd hs (by simp)

/-- Witness for C2 at a concrete view of `[10, 20, 30]` advanced by 1. -/
theorem advance_correct_witness :
    ((RcSlice.fromList [10, 20, 30]).advance 1).fst.isSome = true
  ∧ ((RcSlice.fromList [10, 20, 30]).advance 1).snd.start
      = (RcSlice.fromList [10, 20, 30]).start + 1
  ∧ ([10] : List Nat) = (RcSlice.fromList [10, 20, 30]).content.take 1
  ∧ ((ArcSlice.fromList [10, 20, 30]).advance 1).fst.isSome = true :=
  ⟨(advance_correct (RcSlice.fromList [10, 20, 30]) (ArcSlice.fromList [10, 20, 30])
      1).1.1.mpr (by decide),
    ((advance_correct (RcSlice.fromList [10, 20, 30]) (ArcSlice.fromList [10, 20, 30])
      1).1.2 [10] (by decide)).1,
    ((advance_correct (RcSlice.fromList [10, 20, 30]) (ArcSlice.fromList [10, 20, 30])
      1).1.2 [10] (by decide)).2.2.2.2,
    (advance_correct (RcSlice.fromList [10, 20, 30]) (ArcSlice.fromList [10, 20, 30])
      1).2.1.mpr (by decide)⟩

/-- C3: for a view satisfying the bounds invariant, `retract(decr)` succeeds
iff `end - decr` does not underflow and `end - decr >= start`; on success the
end becomes `end - decr` (start and backing unchanged) and the returned
cut-off slice is the backing range `[end-decr, end)`, the suffix of length
`decr` of the original visible content; on failure the view is unchanged.
Stated for both `RcSlice` and `ArcSlice`. -/
theorem retract_correct {T : Type} (it : RcSlice T) (a : ArcSlice T) (decr : Nat) :
    (it.start ≤ it.stop → it.stop ≤ it.underlying.length →
      ((it.retract decr).fst.isSome = true ↔
          decr ≤ it.stop ∧ it.start ≤ it.stop - decr)
      ∧ (∀ shed : List T, (it.retract decr).fst = some shed →
          (it.retract decr).snd.start = it.start ∧
          (it.retract decr).snd.stop = it.stop - decr ∧
          (it.retract decr).snd.underlying = it.underlying ∧
          shed = sliceRange it.underlying (it.stop - decr) it.stop ∧
          shed = it.content.drop (it.content.length - decr))
      ∧ ((it.retract decr).fst = none → (it.retract decr).snd = it))
  ∧ (a.start ≤ a.stop → a.stop ≤ a.underlying.length →
      ((a.retract decr).fst.isSome = true ↔
          decr ≤ a.stop ∧ a.start ≤ a.stop - decr)
      ∧ (∀ shed : List T, (a.retract decr).fst = some shed →
          (a.retract decr).snd.start = a.start ∧
          (a.retract decr).snd.stop = a.stop - decr ∧
          (a.retract decr).snd.underlying = a.underlying ∧
          shed = sliceRange a.underlying (a.stop - decr) a.stop ∧
          shed = a.content.drop (a.content.length - decr))
      ∧ ((a.retract decr).fst = none → (a.retract decr).snd = a)) := by
  constructor
  · intro h1 h2
    refine ⟨?_, ?_, ?_⟩
    · by_cases ha : decr ≤ it.stop ∧ it.start ≤ it.stop - decr
      · rw [RcSlice.retract_pos it decr ha.1 ha.2]
        simpa using ha
      · rw [RcSlice.retract_none it decr (by omega)]
        simpa using ha
    · intro shed hs
      by_cases ha : decr ≤ it.stop ∧ it.start ≤ it.stop - decr
      · rw [RcSlice.retract_pos it decr ha.1 ha.2] at hs ⊢
        have he := Option.some.inj hs
        subst he
        refine ⟨rfl, rfl, rfl, rfl, ?_⟩
        unfold RcSlice.content
        exact (sliceRange_suffix it.underlying it.start it.stop decr ha.1 ha.2 h2).symm
      · rw [RcSlice.retract_none it decr (by omega)] at hs
        exact absurd hs (by simp)
    · intro hn
      by_cases ha : decr ≤ it.stop ∧ it.start ≤ it.stop - decr
      · rw [RcSlice.retract_pos it decr ha.1 ha.2] at hn
        exact absurd hn (by simp)
      · rw [RcSlice.retract_none it decr (by omega)]
  · intro h1 h2
    refine ⟨?_, ?_, ?_⟩
    · by_cases ha : decr ≤ a.stop ∧ a.start ≤ a.stop - decr
      · rw [ArcSlice.retract_pos_arc a decr ha.1 ha.2]
        simpa using ha
      · rw [ArcSlice.retract_none_arc a decr (by omega)]
        simpa using ha
    · intro shed hs
      by_cases ha : decr ≤ a.stop ∧ a.start ≤ a.stop - decr
      · rw [ArcSlice.retract_pos_arc a decr ha.1 ha.2] at hs ⊢
        have he := Option.some.inj hs
        subst he
        refine ⟨rfl, rfl, rfl, rfl, ?_⟩
        unfold ArcSlice.content
        exact (sliceRange_suffix a.underlying a.start a.stop decr ha.1 ha.2 h2).symm
      · rw [ArcSlice.retract_none_arc a decr (by omega)] at hs
        exact absurd hs (by simp)
    · intro hn
      by_cases ha : decr ≤ a.stop ∧ a.start ≤ a.stop - decr
      · rw [ArcSlice.retract_pos_arc a decr ha.1 ha.2] at hn
        exact absurd hn (by simp)
      · rw [ArcSlice.retract_none_arc a decr (by omega)]

/-- Witness for C3 at a concrete view with bounds (1, 4) over
`[10, 20, 30, 40, 50]`, retracted by 2. -/
theorem retract_correct_witness :
    ((⟨[10, 20, 30, 40, 50], 1, 4⟩ : RcSlice Nat).retract 2).fst.isSome = true
  ∧ ((⟨[10, 20, 30, 40, 50], 1, 4⟩ : RcSlice Nat).retract 2).snd.stop = 4 - 2
  ∧ ([30, 40] : List Nat) =
      (⟨[10, 20, 30, 40, 50], 1, 4⟩ : RcSlice Nat).content.drop
        ((⟨[10, 20, 30, 40, 50], 1, 4⟩ : RcSlice Nat).content.length - 2)
  ∧ ((⟨[10, 20, 30, 40, 50], 1, 4⟩ : ArcSlice Nat).retract 9).snd
      = (⟨[10, 20, 30, 40, 50], 1, 4⟩ : ArcSlice Nat) :=
  ⟨((retract_correct (⟨[10, 20, 30, 40, 50], 1, 4⟩ : RcSlice Nat)
      (⟨[10, 20, 30, 40, 50], 1, 4⟩ : ArcSlice Nat) 2).1 (by decide) (by decide)).1.mpr
      (by decide),
    (((retract_correct (⟨[10, 20, 30, 40, 50], 1, 4⟩ : RcSlice Nat)
      (⟨[10, 20, 30, 40, 50], 1, 4⟩ : ArcSlice Nat) 2).1 (by decide) (by decide)).2.1
      [30, 40] (by decide)).2.1,
    (((retract_correct (⟨[10, 20, 30, 40, 50], 1, 4⟩ : RcSlice Nat)
      (⟨[10, 20, 30, 40, 50], 1, 4⟩ : ArcSlice Nat) 2).1 (by decide) (by decide)).2.1
      [30, 40] (by decide)).2.2.2.2,
    ((retract_correct (⟨[10, 20, 30, 40, 50], 1, 4⟩ : RcSlice Nat)
      (⟨[10, 20, 30, 40, 50], 1, 4⟩ : ArcSlice Nat) 9).2 (by decide) (by decide)).2.2
      (by decide)⟩

/-- C4: for a valid index (`start + index` representable and `<= end`),
`split_off_before(index)` returns a front view with bounds
`(start, start+index)` and mutates the original to `(start+index, end)`;
the two visible contents concatenate to the original visible content, and
the two index ranges are disjoint.  Stated for both variants. -/
theorem split_off_before_correct {T : Type} (it : RcSlice T) (a : ArcSlice T)
    (index : Nat) :
    (it.start + index < usizeSize → it.start + index ≤ it.stop →
      (it.split_off_before index).fst
          = some { underlying := it.underlying, start := it.start,
                    stop := it.start + index }
      ∧ (it.split_off_before index).snd
          = { underlying := it.underlying, start := it.start + index,
              stop := it.stop }
      ∧ RcSlice.content
            { underlying := it.underlying, start := it.start,
              stop := it.start + index }
          ++ RcSlice.content
            { underlying := it.underlying, start := it.start + index,
              stop := it.stop }
          = it.content
      ∧ (∀ k : Nat, it.start ≤ k → k < it.start + index →
          ¬(it.start + index ≤ k ∧ k < it.stop)))
  ∧ (a.start + index < usizeSize → a.start + index ≤ a.stop →
      (a.split_off_before index).fst
          = some { underlying := a.underlying, start := a.start,
                    stop := a.start + index }
      ∧ (a.split_off_before index).snd
          = { underlying := a.underlying, start := a.start + index,
              stop := a.stop }
      ∧ ArcSlice.content
            { underlying := a.underlying, start := a.start,
              stop := a.start + index }
          ++ ArcSlice.content
            { underlying := a.underlying, start := a.start + index,
              stop := a.stop }
          = a.content
      ∧ (∀ k : Nat, a.start ≤ k → k < a.start + index →
          ¬(a.start + index ≤ k ∧ k < a.stop))) := by
  constructor
  · intro h1 h2
    have he := RcSlice.split_off_before_pos it index h1 h2
    refine ⟨congrArg Prod.fst he, congrArg Prod.snd he, ?_, ?_⟩
    · unfold RcSlice.content
      exact sliceRange_append it.underlying it.start (it.start + index) it.stop
        (Nat.le_add_right _ _) h2
    · intro k hk1 hk2 hk3
      omega
  · intro h1 h2
    have he := ArcSlice.split_off_before_pos_arc a index h1 h2
    refine ⟨congrArg Prod.fst he, congrArg Prod.snd he, ?_, ?_⟩
    · unfold ArcSlice.content
      exact sliceRange_append a.underlying a.start (a.start + index) a.stop
        (Nat.le_add_right _ _) h2
    · intro k hk1 hk2 hk3
      omega

/-- Witness for C4: the spec's example, `[10, 20, 30, 40, 50]` split at 2. -/
theorem split_off_before_correct_witness :
    ((RcSlice.fromList [10, 20, 30, 40, 50]).split_off_before 2).fst
        = some { underlying := [10, 20, 30, 40, 50], start := 0, stop := 0 + 2 }
  ∧ ((RcSlice.fromList [10, 20, 30, 40, 50]).split_off_before 2).snd
        = { underlying := [10, 20, 30, 40, 50], start := 0 + 2, stop := 5 }
  ∧ ((ArcSlice.fromList [10, 20, 30, 40, 50]).split_off_before 2).fst
        = some { underlying := [10, 20, 30, 40, 50], start := 0, stop := 0 + 2 } :=
  ⟨((split_off_before_correct (RcSlice.fromList [10, 20, 30, 40, 50])
      (ArcSlice.fromList [10, 20, 30, 40, 50]) 2).1 (by decide) (by decide)).1,
    ((split_off_before_correct (RcSlice.fromList [10, 20, 30, 40, 50])
      (ArcSlice.fromList [10, 20, 30, 40, 50]) 2).1 (by decide) (by decide)).2.1,
    ((split_off_before_correct (RcSlice.fromList [10, 20, 30, 40, 50])
      (ArcSlice.fromList [10, 20, 30, 40, 50]) 2).2 (by decide) (by decide)).1⟩

/-- Counterexample for C5 as stated: on the view of `[10, 20, 30, 40, 50]`
(bounds `(0, 5)`), a successful `split_off_before(2)` does NOT retain the
front part in the original handle — the original's bounds become `(2, 5)`,
not `(0, 2)`, and the returned view holds the front `[10, 20]`, not the
back `[30, 40, 50]`. -/
theorem split_off_before_keeps_front_counterexample :
    ((RcSlice.fromList [10, 20, 30, 40, 50]).split_off_before 2).snd.bounds ≠ (0, 2)
  ∧ ((RcSlice.fromList [10, 20, 30, 40, 50]).split_off_before 2).fst.map
        RcSlice.content ≠ some [30, 40, 50]
  ∧ ((RcSlice.fromList [10, 20, 30, 40, 50]).split_off_before 2).snd.bounds = (2, 5)
  ∧ ((RcSlice.fromList [10, 20, 30, 40, 50]).split_off_before 2).fst.map
        RcSlice.content = some [10, 20] := by
  decide

/-- C5 amended: `split_off_before` keeps the BACK in place under the original
handle: for a valid `index`, a successful `split_off_before(index)` mutates
the original view to the remaining back part (bounds `(start+index, end)`),
and the newly produced (returned) view holds the front part of length
`index` (bounds `(start, start+index)`, content the first `index` elements
of the original visible content). -/
theorem split_off_before_keeps_back {T : Type} (it : RcSlice T) (index : Nat)
    (h1 : it.start + index < usizeSize) (h2 : it.start + index ≤ it.stop) :
    (it.split_off_before index).snd.bounds = (it.start + index, it.stop)
  ∧ (it.split_off_before index).fst.map RcSlice.bounds
      = some (it.start, it.start + index)
  ∧ (it.split_off_before index).fst.map RcSlice.content
      = some (it.content.take index) := by
  rw [RcSlice.split_off_before_pos it index h1 h2]
  refine ⟨rfl, rfl, ?_⟩
  simp only [Option.map_some]
  unfold RcSlice.content
  exact congrArg some (sliceRange_take it.underlying it.start it.stop index h2).symm

/-- Witness for the amended C5 at the spec's example input. -/
theorem split_off_before_keeps_back_witness :
    ((RcSlice.fromList [10, 20, 30, 40, 50]).split_off_before 2).snd.bounds = (0 + 2, 5)
  ∧ ((RcSlice.fromList [10, 20, 30, 40, 50]).split_off_before 2).fst.map
        RcSlice.bounds = some (0, 0 + 2)
  ∧ ((RcSlice.fromList [10, 20, 30, 40, 50]).split_off_before 2).fst.map
        RcSlice.content
      = some ((RcSlice.fromList [10, 20, 30, 40, 50]).content.take 2) :=
  split_off_before_keeps_back (RcSlice.fromList [10, 20, 30, 40, 50]) 2
    (by decide) (by decide)

/-- C6: under their respective failure conditions (overflow or out-of-range
request), `advance`, `retract`, `split_off_before` and `split_off_after`
all return a failure and leave the view exactly unchanged — no partial
mutation.  Stated for both variants. -/
theorem failure_leaves_view_unchanged {T : Type} (it : RcSlice T) (a : ArcSlice T)
    (incr decr i j : Nat) :
    ((usizeSize ≤ it.start + incr ∨ it.stop < it.start + incr) →
        (it.advance incr).fst = none ∧ (it.advance incr).snd = it)
  ∧ ((it.stop < decr ∨ it.stop - decr < it.start) →
        (it.retract decr).fst = none ∧ (it.retract decr).snd = it)
  ∧ ((usizeSize ≤ it.start + i ∨ it.stop < it.start + i) →
        (it.split_off_before i).fst = none ∧ (it.split_off_before i).snd = it)
  ∧ ((usizeSize ≤ it.start + j ∨ it.stop < it.start + j) →
        (it.split_off_after j).fst = none ∧ (it.split_off_after j).snd = it)
  ∧ ((usizeSize ≤ a.start + incr ∨ a.stop < a.start + incr) →
        (a.advance incr).fst = none ∧ (a.advance incr).snd = a)
  ∧ ((a.stop < decr ∨ a.stop - decr < a.start) →
        (a.retract decr).fst = none ∧ (a.retract decr).snd = a)
  ∧ ((usizeSize ≤ a.start + i ∨ a.stop < a.start + i) →
        (a.split_off_before i).fst = none ∧ (a.split_off_before i).snd = a)
  ∧ ((usizeSize ≤ a.start + j ∨ a.stop < a.start + j) →
        (a.split_off_after j).fst = none ∧ (a.split_off_after j).snd = a) :=
  ⟨fun h => by rw [RcSlice.advance_none it incr h]; exact ⟨rfl, rfl⟩,
    fun h => by rw [RcSlice.retract_none it decr h]; exact ⟨rfl, rfl⟩,
    fun h => by rw [RcSlice.split_off_before_none it i h]; exact ⟨rfl, rfl⟩,
    fun h => by rw [RcSlice.split_off_after_none it j h]; exact ⟨rfl, rfl⟩,
    fun h => by rw [ArcSlice.advance_none_arc a incr h]; exact ⟨rfl, rfl⟩,
    fun h => by rw [ArcSlice.retract_none_arc a decr h]; exact ⟨rfl, rfl⟩,
    fun h => by rw [ArcSlice.split_off_before_none_arc a i h]; exact ⟨rfl, rfl⟩,
    fun h => by rw [ArcSlice.split_off_after_none_arc a j h]; exact ⟨rfl, rfl⟩⟩

/-- Witness for C6: every operation fails and leaves the view `[40]`
(bounds `(3, 4)` over a backing of length 5) unchanged when asked to cut 5
places. -/
theorem failure_leaves_view_unchanged_witness :
    (((⟨[10, 20, 30, 40, 50], 3, 4⟩ : RcSlice Nat).advance 5).fst = none
      ∧ ((⟨[10, 20, 30, 40, 50], 3, 4⟩ : RcSlice Nat).advance 5).snd
          = (⟨[10, 20, 30, 40, 50], 3, 4⟩ : RcSlice Nat))
  ∧ (((⟨[10, 20, 30, 40, 50], 3, 4⟩ : RcSlice Nat).retract 5).fst = none
      ∧ ((⟨[10, 20, 30, 40, 50], 3, 4⟩ : RcSlice Nat).retract 5).snd
          = (⟨[10, 20, 30, 40, 50], 3, 4⟩ : RcSlice Nat))
  ∧ (((⟨[10, 20, 30, 40, 50], 3, 4⟩ : RcSlice Nat).split_off_before 5).fst = none
      ∧ ((⟨[10, 20, 30, 40, 50], 3, 4⟩ : RcSlice Nat).split_off_before 5).snd
          = (⟨[10, 20, 30, 40, 50], 3, 4⟩ : RcSlice Nat))
  ∧ (((⟨[10, 20, 30, 40, 50], 3, 4⟩ : ArcSlice Nat).split_off_after 5).fst = none
      ∧ ((⟨[10, 20, 30, 40, 50], 3, 4⟩ : ArcSlice Nat).split_off_after 5).snd
          = (⟨[10, 20, 30, 40, 50], 3, 4⟩ : ArcSlice Nat)) :=
  ⟨(failure_leaves_view_unchanged (⟨[10, 20, 30, 40, 50], 3, 4⟩ : RcSlice Nat)
      (⟨[10, 20, 30, 40, 50], 3, 4⟩ : ArcSlice Nat) 5 5 5 5).1 (by decide),
    (failure_leaves_view_unchanged (⟨[10, 20, 30, 40, 50], 3, 4⟩ : RcSlice Nat)
      (⟨[10, 20, 30, 40, 50], 3, 4⟩ : ArcSlice Nat) 5 5 5 5).2.1 (by decide),
    (failure_leaves_view_unchanged (⟨[10, 20, 30, 40, 50], 3, 4⟩ : RcSlice Nat)
      (⟨[10, 20, 30, 40, 50], 3, 4⟩ : ArcSlice Nat) 5 5 5 5).2.2.1 (by decide),
    (failure_leaves_view_unchanged (⟨[10, 20, 30, 40, 50], 3, 4⟩ : RcSlice Nat)
      (⟨[10, 20, 30, 40, 50], 3, 4⟩ : ArcSlice Nat) 5 5 5 5).2.2.2.2.2.2.2
      (by decide)⟩

/-- C7: equality and hashing are content-based — equal visible content gives
`eq = true` and identical hasher evolution for every hasher; unequal visible
content gives `eq = false`. -/
theorem eq_hash_content_based {T : Type} [BEq T] [LawfulBEq T] (v w : RcSlice T) :
    (v.content = w.content →
        v.beq w = true
      ∧ ∀ (σ : Type) (step : σ → T → σ) (st : σ),
          RcSlice.hashWith step st v = RcSlice.hashWith step st w)
  ∧ (v.content ≠ w.content → v.beq w = false) := by
  constructor
  · intro h
    constructor
    · unfold RcSlice.beq
      rw [h]
      simp
    · intro σ step st
      unfold RcSlice.hashWith
      rw [h]
  · intro h
    unfold RcSlice.beq
    simpa using h

/-- Witness for C7: views over different backing allocations and different
bounds with equal visible content `[1, 2]` compare equal and hash equal;
views with different visible content compare unequal. -/
theorem eq_hash_content_based_witness :
    RcSlice.beq (RcSlice.fromList [1, 2]) (⟨[0, 1, 2, 9], 1, 3⟩ : RcSlice Nat) = true
  ∧ RcSlice.hashWith (fun s t => s * 31 + t) 7 (RcSlice.fromList [1, 2])
      = RcSlice.hashWith (fun s t => s * 31 + t) 7 (⟨[0, 1, 2, 9], 1, 3⟩ : RcSlice Nat)
  ∧ RcSlice.beq (RcSlice.fromList [1, 2]) (RcSlice.fromList [1, 3]) = false :=
  ⟨((eq_hash_content_based (RcSlice.fromList [1, 2])
        (⟨[0, 1, 2, 9], 1, 3⟩ : RcSlice Nat)).1 (by decide)).1,
    ((eq_hash_content_based (RcSlice.fromList [1, 2])
        (⟨[0, 1, 2, 9], 1, 3⟩ : RcSlice Nat)).1 (by decide)).2 Nat
        (fun s t => s * 31 + t) 7,
    (eq_hash_content_based (RcSlice.fromList [1, 2])
        (RcSlice.fromList [1, 3])).2 (by decide)⟩

theorem foldl_stepPair_fst {T : Type} (p : RcSlice T × RcSlice T)
    (ops : List MutOp) : (List.foldl stepPair p ops).fst = p.fst := by
  induction ops generalizing p with
  | nil => rfl
  | cons op ops ih => exact ih (stepPair p op)

theorem foldl_stepPairArc_fst {T : Type} (p : ArcSlice T × ArcSlice T)
    (ops : List MutOp) : (List.foldl stepPairArc p ops).fst = p.fst := by
  induction ops generalizing p with
  | nil => rfl
  | cons op ops ih => exact ih (stepPairArc p op)

/-- C9: `clone` yields a view with identical visible content and bounds, and
applying any sequence of bounds-mutating operations (`advance`, `retract`,
`split_off_before`, `split_off_after`) to the copy leaves the original view
— in particular its bounds — exactly unchanged.  Stated for both variants. -/
theorem clone_independent {T : Type} (it : RcSlice T) (a : ArcSlice T)
    (ops : List MutOp) :
    it.clone.content = it.content
  ∧ it.clone.bounds = it.bounds
  ∧ (List.foldl stepPair (it, it.clone) ops).fst = it
  ∧ (List.foldl stepPair (it, it.clone) ops).fst.bounds = it.bounds
  ∧ a.clone.content = a.content
  ∧ a.clone.bounds = a.bounds
  ∧ (List.foldl stepPairArc (a, a.clone) ops).fst = a
  ∧ (List.foldl stepPairArc (a, a.clone) ops).fst.bounds = a.bounds := by
  refine ⟨rfl, rfl, foldl_stepPair_fst _ _, ?_, rfl, rfl,
    foldl_stepPairArc_fst _ _, ?_⟩
  · rw [foldl_stepPair_fst]
  · rw [foldl_stepPairArc_fst]

/-- Counterexample for C10 as stated: on the fresh view of `[10, 20, 30]`,
`split_off_after(0)` does NOT return an empty companion leaving the
original's full window — the companion is the full previous window
`[10, 20, 30]` and the original view becomes empty. -/
theorem zero_split_off_after_counterexample :
    ¬(((RcSlice.fromList [10, 20, 30]).split_off_after 0).fst.map RcSlice.content
          = some []
      ∧ ((RcSlice.fromList [10, 20, 30]).split_off_after 0).snd.bounds = (0, 3))
  ∧ ((RcSlice.fromList [10, 20, 30]).split_off_after 0).fst.map RcSlice.content
      = some [10, 20, 30]
  ∧ ((RcSlice.fromList [10, 20, 30]).split_off_after 0).snd.content = [] := by
  decide

/-- C10 amended: zero-sized requests always succeed, including on an empty
view: `advance(0)` and `retract(0)` return an empty cut-off slice and leave
the view unchanged; `split_off_before(0)` returns an empty companion view
while the original keeps its full previous window; `split_off_after(0)`
returns a companion view equal to the full previous window while the
original view becomes empty (bounds `(start, start)`).  Stated for both
variants, for views satisfying the bounds invariant. -/
theorem zero_requests {T : Type} (it : RcSlice T) (a : ArcSlice T)
    (h1 : it.start ≤ it.stop) (h2 : it.stop ≤ it.underlying.length)
    (h3 : it.underlying.length < usizeSize)
    (g1 : a.start ≤ a.stop) (g2 : a.stop ≤ a.underlying.length)
    (g3 : a.underlying.length < usizeSize) :
    it.advance 0 = (some [], it)
  ∧ it.retract 0 = (some [], it)
  ∧ (it.split_off_before 0).fst.map RcSlice.bounds = some (it.start, it.start)
  ∧ (it.split_off_before 0).fst.map RcSlice.content = some []
  ∧ (it.split_off_before 0).snd = it
  ∧ (it.split_off_after 0).fst.map RcSlice.bounds = some (it.start, it.stop)
  ∧ (it.split_off_after 0).fst.map RcSlice.content = some it.content
  ∧ (it.split_off_after 0).snd.bounds = (it.start, it.start)
  ∧ (it.split_off_after 0).snd.content = []
  ∧ a.advance 0 = (some [], a)
  ∧ a.retract 0 = (some [], a)
  ∧ (a.split_off_before 0).fst.map ArcSlice.bounds = some (a.start, a.start)
  ∧ (a.split_off_before 0).fst.map ArcSlice.content = some []
  ∧ (a.split_off_before 0).snd = a
  ∧ (a.split_off_after 0).fst.map ArcSlice.bounds = some (a.start, a.stop)
  ∧ (a.split_off_after 0).fst.map ArcSlice.content = some a.content
  ∧ (a.split_off_after 0).snd.bounds = (a.start, a.start)
  ∧ (a.split_off_after 0).snd.content = [] := by
  obtain ⟨u, s, e⟩ := it
  obtain ⟨u2, s2, e2⟩ := a
  simp only at h1 h2 h3 g1 g2 g3
  have hlt : s + 0 < usizeSize := by omega
  have hle : s + 0 ≤ e := by omega
  have glt : s2 + 0 < usizeSize := by omega
  have gle : s2 + 0 ≤ e2 := by omega
  rw [RcSlice.advance_pos _ 0 hlt hle, RcSlice.retract_pos _ 0 (Nat.zero_le _) (by simp only; omega),
    RcSlice.split_off_before_pos _ 0 hlt hle, RcSlice.split_off_after_pos _ 0 hlt hle,
    ArcSlice.advance_pos_arc _ 0 glt gle, ArcSlice.retract_pos_arc _ 0 (Nat.zero_le _) (by simp only; omega),
    ArcSlice.split_off_before_pos_arc _ 0 glt gle, ArcSlice.split_off_after_pos_arc _ 0 glt gle]
  simp [sliceRange, RcSlice.content, ArcSlice.content, RcSlice.bounds, ArcSlice.bounds]

/-- Witness for the amended C10 at fresh views of `[10, 20, 30]`. -/
theorem zero_requests_witness :
    (RcSlice.fromList [10, 20, 30]).advance 0
        = (some [], RcSlice.fromList [10, 20, 30])
  ∧ ((RcSlice.fromList [10, 20, 30]).split_off_after 0).fst.map RcSlice.content
        = some (RcSlice.fromList [10, 20, 30]).content
  ∧ ((ArcSlice.fromList [10, 20, 30]).split_off_after 0).snd.content = [] := by
  obtain ⟨w1, w2, w3, w4, w5, w6, w7, w8, w9, x1, x2, x3, x4, x5, x6, x7, x8, x9⟩ :=
    zero_requests (RcSlice.fromList [10, 20, 30]) (ArcSlice.fromList [10, 20, 30])
      (by decide) (by decide) (by decide) (by decide) (by decide) (by decide)
  exact ⟨w1, w7, x9⟩

/-! ### Transport between the two variants -/

theorem toRc_advance {T : Type} (a : ArcSlice T) (n : Nat) :
    (a.advance n).fst = (a.toRc.advance n).fst
  ∧ (a.advance n).snd.toRc = (a.toRc.advance n).snd := by
  obtain ⟨u, s, e⟩ := a
  have ht : (⟨u, s, e⟩ : ArcSlice T).toRc = (⟨u, s, e⟩ : RcSlice T) := rfl
  rw [ht]
  by_cases ha : s + n < usizeSize ∧ s + n ≤ e
  · rw [ArcSlice.advance_pos_arc _ n ha.1 ha.2, RcSlice.advance_pos _ n ha.1 ha.2]
    exact ⟨rfl, rfl⟩
  · rw [ArcSlice.advance_none_arc _ n (show usizeSize ≤ s + n ∨ e < s + n by omega),
      RcSlice.advance_none _ n (show usizeSize ≤ s + n ∨ e < s + n by omega)]
    exact ⟨rfl, rfl⟩

theorem toRc_retract {T : Type} (a : ArcSlice T) (n : Nat) :
    (a.retract n).fst = (a.toRc.retract n).fst
  ∧ (a.retract n).snd.toRc = (a.toRc.retract n).snd := by
  obtain ⟨u, s, e⟩ := a
  have ht : (⟨u, s, e⟩ : ArcSlice T).toRc = (⟨u, s, e⟩ : RcSlice T) := rfl
  rw [ht]
  by_cases ha : n ≤ e ∧ s ≤ e - n
  · rw [ArcSlice.retract_pos_arc _ n ha.1 ha.2, RcSlice.retract_pos _ n ha.1 ha.2]
    exact ⟨rfl, rfl⟩
  · rw [ArcSlice.retract_none_arc _ n (show e < n ∨ e - n < s by omega),
      RcSlice.retract_none _ n (show e < n ∨ e - n < s by omega)]
    exact ⟨rfl, rfl⟩

theorem toRc_split_off_before {T : Type} (a : ArcSlice T) (n : Nat) :
    (a.split_off_before n).fst.map ArcSlice.toRc = (a.toRc.split_off_before n).fst
  ∧ (a.split_off_before n).snd.toRc = (a.toRc.split_off_before n).snd := by
  obtain ⟨u, s, e⟩ := a
  have ht : (⟨u, s, e⟩ : ArcSlice T).toRc = (⟨u, s, e⟩ : RcSlice T) := rfl
  rw [ht]
  by_cases ha : s + n < usizeSize ∧ s + n ≤ e
  · rw [ArcSlice.split_off_before_pos_arc _ n ha.1 ha.2,
      RcSlice.split_off_before_pos _ n ha.1 ha.2]
    exact ⟨rfl, rfl⟩
  · rw [ArcSlice.split_off_before_none_arc _ n (show usizeSize ≤ s + n ∨ e < s + n by omega),
      RcSlice.split_off_before_none _ n (show usizeSize ≤ s + n ∨ e < s + n by omega)]
    exact ⟨rfl, rfl⟩

theorem toRc_split_off_after {T : Type} (a : ArcSlice T) (n : Nat) :
    (a.split_off_after n).fst.map ArcSlice.toRc = (a.toRc.split_off_after n).fst
  ∧ (a.split_off_after n).snd.toRc = (a.toRc.split_off_after n).snd := by
  obtain ⟨u, s, e⟩ := a
  have ht : (⟨u, s, e⟩ : ArcSlice T).toRc = (⟨u, s, e⟩ : RcSlice T) := rfl
  rw [ht]
  by_cases ha : s + n < usizeSize ∧ s + n ≤ e
  · rw [ArcSlice.split_off_after_pos_arc _ n ha.1 ha.2,
      RcSlice.split_off_after_pos _ n ha.1 ha.2]
    exact ⟨rfl, rfl⟩
  · rw [ArcSlice.split_off_after_none_arc _ n (show usizeSize ≤ s + n ∨ e < s + n by omega),
      RcSlice.split_off_after_none _ n (show usizeSize ≤ s + n ∨ e < s + n by omega)]
    exact ⟨rfl, rfl⟩

/-- C8: `RcSlice` and `ArcSlice` are behaviourally identical.  The
field-for-field map `toRc` (with inverse `toArc`) commutes with
construction, `bounds`, visible content, `clone`, `advance`, `retract`,
both splits, equality, ordering and hashing: for every input the two
variants produce the same bounds, the same success/failure outcome and the
same visible content. -/
theorem rc_arc_equivalent {T : Type} [BEq T] (c : T → T → Ordering)
    {σ : Type} (step : σ → T → σ) (st : σ) (l : List T) (a b : ArcSlice T)
    (v : RcSlice T) (incr decr i j : Nat) :
    (ArcSlice.fromList l).toRc = RcSlice.fromList l
  ∧ (RcSlice.fromList l).toArc = ArcSlice.fromList l
  ∧ a.toRc.toArc = a
  ∧ v.toArc.toRc = v
  ∧ a.bounds = a.toRc.bounds
  ∧ a.content = a.toRc.content
  ∧ a.clone.toRc = a.toRc.clone
  ∧ (a.advance incr).fst = (a.toRc.advance incr).fst
  ∧ (a.advance incr).snd.toRc = (a.toRc.advance incr).snd
  ∧ (a.retract decr).fst = (a.toRc.retract decr).fst
  ∧ (a.retract decr).snd.toRc = (a.toRc.retract decr).snd
  ∧ (a.split_off_before i).fst.map ArcSlice.toRc = (a.toRc.split_off_before i).fst
  ∧ (a.split_off_before i).snd.toRc = (a.toRc.split_off_before i).snd
  ∧ (a.split_off_after j).fst.map ArcSlice.toRc = (a.toRc.split_off_after j).fst
  ∧ (a.split_off_after j).snd.toRc = (a.toRc.split_off_after j).snd
  ∧ a.beq b = a.toRc.beq b.toRc
  ∧ ArcSlice.cmp c a b = RcSlice.cmp c a.toRc b.toRc
  ∧ ArcSlice.hashWith step st a = RcSlice.hashWith step st a.toRc :=
  ⟨rfl, rfl, rfl, rfl, rfl, rfl, rfl,
    (toRc_advance a incr).1, (toRc_advance a incr).2,
    (toRc_retract a decr).1, (toRc_retract a decr).2,
    (toRc_split_off_before a i).1, (toRc_split_off_before a i).2,
    (toRc_split_off_after a j).1, (toRc_split_off_after a j).2,
    rfl, rfl, rfl⟩
